import Mathlib

/-!
Formal model of the sneeze-tracking bot (src/bot.py, src/database.py).

Calendar dates follow Python's `datetime.date`: years 1..9999, the usual
Gregorian leap rule, and day arithmetic that fails (OverflowError) outside
that range.  Date strings are modelled as lists of byte values, and the
SQLite TEXT comparison used by the `date >= ? AND date < ?` queries is
modelled as bytewise memcmp order.
-/

structure Date where
  year : Nat
  month : Nat
  day : Nat
deriving DecidableEq, Repr

/-- Python's leap-year test (`calendar.isleap`, used by `datetime.date`). -/
def isLeap (y : Nat) : Bool := y % 4 == 0 && (y % 100 != 0 || y % 400 == 0)

/-- Days in a month, as in `datetime`'s `_days_in_month`. -/
def daysInMonth (y m : Nat) : Nat :=
  match m with
  | 1 => 31
  | 2 => if isLeap y then 29 else 28
  | 3 => 31
  | 4 => 30
  | 5 => 31
  | 6 => 30
  | 7 => 31
  | 8 => 31
  | 9 => 30
  | 10 => 31
  | 11 => 30
  | 12 => 31
  | _ => 0

/-- Validity of a `Date`, exactly the checks done by the `datetime.date`
constructor (`MINYEAR = 1`, `MAXYEAR = 9999`). -/
def Date.valid (d : Date) : Prop :=
  1 ≤ d.year ∧ d.year ≤ 9999 ∧ 1 ≤ d.month ∧ d.month ≤ 12 ∧
    1 ≤ d.day ∧ d.day ≤ daysInMonth d.year d.month

instance (d : Date) : Decidable d.valid := by
  unfold Date.valid; infer_instance

/-- Numeric key `YYYYMMDD`; two valid dates compare chronologically iff their
keys compare numerically. -/
def Date.key (d : Date) : Nat := d.year * 10000 + d.month * 100 + d.day

/-- `d + timedelta(days=1)`: `none` models Python's OverflowError past
9999-12-31. -/
def succOpt (d : Date) : Option Date :=
  if d.day < daysInMonth d.year d.month then some ⟨d.year, d.month, d.day + 1⟩
  else if d.month < 12 then some ⟨d.year, d.month + 1, 1⟩
  else if d.year < 9999 then some ⟨d.year + 1, 1, 1⟩
  else none

/-- `d - timedelta(days=1)`: `none` models Python's OverflowError before
0001-01-01. -/
def predOpt (d : Date) : Option Date :=
  if 1 < d.day then some ⟨d.year, d.month, d.day - 1⟩
  else if 1 < d.month then some ⟨d.year, d.month - 1, daysInMonth d.year (d.month - 1)⟩
  else if 1 < d.year then some ⟨d.year - 1, 12, 31⟩
  else none

/-- `d - timedelta(days=6)` as six single-day steps; `none` exactly when the
subtraction leaves the representable range. -/
def subDays6 (d : Date) : Option Date :=
  ((((((predOpt d).bind predOpt).bind predOpt).bind predOpt).bind predOpt).bind predOpt)

/-- UTF-8 bytes of `date.isoformat()` (`YYYY-MM-DD`, year zero-padded to four
digits, as Python renders every valid date). -/
def isoBytes (d : Date) : List Nat :=
  [48 + d.year / 1000, 48 + d.year / 100 % 10, 48 + d.year / 10 % 10, 48 + d.year % 10,
   45,
   48 + d.month / 10, 48 + d.month % 10,
   45,
   48 + d.day / 10, 48 + d.day % 10]

/-- Bytewise `memcmp` strict order, SQLite's BINARY collation used by the
`date >= ?` / `date < ?` comparisons (ISO date strings are ASCII). -/
def memLt : List Nat → List Nat → Bool
  | [], [] => false
  | [], _ :: _ => true
  | _ :: _, [] => false
  | a :: as, b :: bs => if a < b then true else if b < a then false else memLt as bs

/-- `a <= b` in memcmp order. -/
def memLe (a b : List Nat) : Bool := !(memLt b a)

theorem memLt_irrefl (a : List Nat) : memLt a a = false := by
  induction a with
  | nil => rfl
  | cons x xs ih => simp [memLt, ih]

/-- Weak bounds on the fields that the byte-level comparison needs. -/
def Date.inReprRange (d : Date) : Prop :=
  d.year ≤ 9999 ∧ d.month ≤ 99 ∧ d.day ≤ 99

theorem valid_inReprRange {d : Date} (h : d.valid) : d.inReprRange := by
  obtain ⟨_, h2, _, h4, _, _⟩ := h
  exact ⟨h2, by omega, by
    have h31 : daysInMonth d.year d.month ≤ 31 := by
      unfold daysInMonth
      rcases d with ⟨y, m, dd⟩
      match m with
      | 0 => simp
      | 1 => simp
      | 2 => dsimp; split <;> omega
      | 3 => simp
      | 4 => simp
      | 5 => simp
      | 6 => simp
      | 7 => simp
      | 8 => simp
      | 9 => simp
      | 10 => simp
      | 11 => simp
      | 12 => simp
      | (n + 13) => simp
    omega⟩

theorem daysInMonth_le_31 (y m : Nat) : daysInMonth y m ≤ 31 := by
  unfold daysInMonth
  match m with
  | 0 => simp
  | 1 => simp
  | 2 => dsimp; split <;> omega
  | 3 => simp
  | 4 => simp
  | 5 => simp
  | 6 => simp
  | 7 => simp
  | 8 => simp
  | 9 => simp
  | 10 => simp
  | 11 => simp
  | 12 => simp
  | (n + 13) => simp

theorem daysInMonth_pos (y : Nat) {m : Nat} (h1 : 1 ≤ m) (h2 : m ≤ 12) :
    1 ≤ daysInMonth y m := by
  unfold daysInMonth
  match m with
  | 1 => simp
  | 2 => dsimp; split <;> omega
  | 3 => simp
  | 4 => simp
  | 5 => simp
  | 6 => simp
  | 7 => simp
  | 8 => simp
  | 9 => simp
  | 10 => simp
  | 11 => simp
  | 12 => simp

theorem memLt_cons (a b : Nat) (as bs : List Nat) :
    memLt (a :: as) (b :: bs) =
      if a < b then true else if b < a then false else memLt as bs := rfl

theorem memLt_nil : memLt [] [] = false := rfl

theorem memLt_cons_same (c : Nat) (as bs : List Nat) :
    memLt (c :: as) (c :: bs) = memLt as bs := by
  rw [memLt_cons]; simp

/-- Comparing a zero-padded two-digit block decides the comparison unless the
blocks are equal. -/
theorem memLt_digit2 (x y : Nat) (as bs : List Nat) :
    memLt ((48 + x / 10) :: (48 + x % 10) :: as) ((48 + y / 10) :: (48 + y % 10) :: bs) =
      if x < y then true else if y < x then false else memLt as bs := by
  rw [memLt_cons, memLt_cons]
  split_ifs <;> first | rfl | (exfalso; omega)

/-- memcmp order on ISO byte strings agrees with the numeric key order. -/
theorem memLt_isoBytes {d1 d2 : Date} (h1 : d1.inReprRange) (h2 : d2.inReprRange) :
    memLt (isoBytes d1) (isoBytes d2) = true ↔ d1.key < d2.key := by
  obtain ⟨hy1, hm1, hd1⟩ := h1
  obtain ⟨hy2, hm2, hd2⟩ := h2
  rcases d1 with ⟨y1, m1, a1⟩
  rcases d2 with ⟨y2, m2, a2⟩
  dsimp only at hy1 hm1 hd1 hy2 hm2 hd2
  simp only [Date.key, isoBytes]
  rw [show 48 + y1 / 1000 = 48 + y1 / 100 / 10 by omega,
      show 48 + y1 / 10 % 10 = 48 + y1 % 100 / 10 by omega,
      show 48 + y1 % 10 = 48 + y1 % 100 % 10 by omega,
      show 48 + y2 / 1000 = 48 + y2 / 100 / 10 by omega,
      show 48 + y2 / 10 % 10 = 48 + y2 % 100 / 10 by omega,
      show 48 + y2 % 10 = 48 + y2 % 100 % 10 by omega]
  rw [memLt_digit2 (y1 / 100) (y2 / 100), memLt_digit2 (y1 % 100) (y2 % 100),
      memLt_cons_same, memLt_digit2 m1 m2, memLt_cons_same, memLt_digit2 a1 a2,
      memLt_nil]
  split_ifs <;> simp only [eq_self_iff_true, true_iff, Bool.false_eq_true, false_iff] <;> omega

theorem memLe_isoBytes {d1 d2 : Date} (h1 : d1.inReprRange) (h2 : d2.inReprRange) :
    memLe (isoBytes d1) (isoBytes d2) = true ↔ d1.key ≤ d2.key := by
  unfold memLe
  rw [Bool.not_eq_eq_eq_not, Bool.not_true, ← Bool.not_eq_true, memLt_isoBytes h2 h1]
  omega


theorem succOpt_valid {d e : Date} (hd : d.valid) (hs : succOpt d = some e) : e.valid := by
  obtain ⟨h1, h2, h3, h4, h5, h6⟩ := hd
  unfold succOpt at hs
  split_ifs at hs with hc1 hc2 hc3
  · cases hs
    exact ⟨h1, h2, h3, h4, by show 1 ≤ d.day + 1; omega,
      by show d.day + 1 ≤ daysInMonth d.year d.month; omega⟩
  · cases hs
    exact ⟨h1, h2, by show 1 ≤ d.month + 1; omega, by show d.month + 1 ≤ 12; omega,
      le_refl 1, by
        show (1 : Nat) ≤ daysInMonth d.year (d.month + 1)
        exact daysInMonth_pos d.year (by omega) (by omega)⟩
  · cases hs
    exact ⟨by show 1 ≤ d.year + 1; omega, by show d.year + 1 ≤ 9999; omega,
      le_refl 1, by show (1 : Nat) ≤ 12; omega, le_refl 1,
      by show (1 : Nat) ≤ daysInMonth (d.year + 1) 1; rw [show daysInMonth (d.year + 1) 1 = 31 from rfl]; omega⟩

theorem predOpt_valid {d e : Date} (hd : d.valid) (hs : predOpt d = some e) : e.valid := by
  obtain ⟨h1, h2, h3, h4, h5, h6⟩ := hd
  unfold predOpt at hs
  split_ifs at hs with hc1 hc2 hc3
  · cases hs
    exact ⟨h1, h2, h3, h4, by show 1 ≤ d.day - 1; omega,
      by show d.day - 1 ≤ daysInMonth d.year d.month; omega⟩
  · cases hs
    exact ⟨h1, h2, by show 1 ≤ d.month - 1; omega, by show d.month - 1 ≤ 12; omega,
      daysInMonth_pos d.year (by omega) (by omega), le_refl _⟩
  · cases hs
    exact ⟨by show 1 ≤ d.year - 1; omega, by show d.year - 1 ≤ 9999; omega,
      by show (1 : Nat) ≤ 12; omega, le_refl 12,
      by show (1 : Nat) ≤ 31; omega,
      by show (31 : Nat) ≤ daysInMonth (d.year - 1) 12; rw [show daysInMonth (d.year - 1) 12 = 31 from rfl]⟩

theorem bind_predOpt_valid {o : Option Date} (ho : ∀ x, o = some x → x.valid)
    {e : Date} (h : o.bind predOpt = some e) : e.valid := by
  cases o with
  | none => exact Option.noConfusion h
  | some x =>
      simp only [Option.some_bind] at h
      exact predOpt_valid (ho x rfl) h

theorem subDays6_valid {d e : Date} (hd : d.valid) (hs : subDays6 d = some e) : e.valid := by
  unfold subDays6 at hs
  refine bind_predOpt_valid (fun x5 h5 => ?_) hs
  refine bind_predOpt_valid (fun x4 h4 => ?_) h5
  refine bind_predOpt_valid (fun x3 h3 => ?_) h4
  refine bind_predOpt_valid (fun x2 h2 => ?_) h3
  refine bind_predOpt_valid (fun x1 h1 => ?_) h2
  exact predOpt_valid hd h1

/-- There is no valid date strictly between a valid date and its successor:
`d < succ e` is the same as `d ≤ e` on keys. -/
theorem key_lt_succ_iff {d e e' : Date} (hd : d.valid) (he : e.valid)
    (hs : succOpt e = some e') : d.key < e'.key ↔ d.key ≤ e.key := by
  have hd31 : d.day ≤ 31 := le_trans hd.2.2.2.2.2 (daysInMonth_le_31 _ _)
  have he31 : daysInMonth e.year e.month ≤ 31 := daysInMonth_le_31 _ _
  obtain ⟨hd1, hd2, hd3, hd4, hd5, hd6⟩ := hd
  obtain ⟨he1, he2, he3, he4, he5, he6⟩ := he
  unfold succOpt at hs
  split_ifs at hs with hc1 hc2 hc3
  · cases hs
    simp only [Date.key]
    omega
  · cases hs
    simp only [Date.key]
    constructor
    · intro hlt
      by_contra hgt
      push_neg at hgt
      have hy : d.year = e.year := by omega
      have hm : d.month = e.month ∨ d.month = e.month + 1 := by omega
      rcases hm with hm | hm
      · rw [hy, hm] at hd6
        omega
      · omega
    · intro hle; omega
  · cases hs
    simp only [Date.key]
    have hem : e.month = 12 := by omega
    rw [hem] at he6 hc1
    rw [show daysInMonth e.year 12 = 31 from rfl] at he6 hc1
    constructor
    · intro hlt
      by_contra hgt
      push_neg at hgt
      have hy : d.year = e.year ∨ d.year = e.year + 1 := by omega
      rcases hy with hy | hy
      · have hm : d.month = 12 := by omega
        rw [hy, hm] at hd6
        rw [show daysInMonth e.year 12 = 31 from rfl] at hd6
        omega
      · omega
    · intro hle; omega

theorem succOpt_key_gt {d e : Date} (hd : d.valid) (hs : succOpt d = some e) :
    d.key < e.key := by
  have hdim := daysInMonth_le_31 d.year d.month
  obtain ⟨h1, h2, h3, h4, h5, h6⟩ := hd
  unfold succOpt at hs
  split_ifs at hs with hc1 hc2 hc3 <;> (cases hs; simp only [Date.key]; omega)

/-- Decimal digits of a natural number, as bytes (Python `str(n)` for
`n ≥ 0`); fuel-based so that it reduces computationally. -/
def natDigitsGo : Nat → Nat → List Nat
  | 0, _ => []
  | f + 1, n => if n < 10 then [48 + n] else natDigitsGo f (n / 10) ++ [48 + n % 10]

def natDigits (n : Nat) : List Nat := natDigitsGo (n + 1) n

/-- Python `str(i)` for an int: optional minus sign then decimal digits. -/
def intBytes (i : Int) : List Nat :=
  if i < 0 then 45 :: natDigits (-i).toNat else natDigits i.toNat

/-- Python `f-string` `{n:02d}` formatting for a non-negative int. -/
def pad2 (n : Nat) : List Nat :=
  if n < 100 then [48 + n / 10, 48 + n % 10] else natDigits n

/-- `f"{year}-{month:02d}-01"` from `Database.get_month_stats` (note: the year
is NOT zero-padded, unlike `date.isoformat()`). -/
def monthStartBytes (year : Int) (month : Nat) : List Nat :=
  intBytes year ++ [45] ++ pad2 month ++ [45, 48, 49]

/-- The end bound computed by `Database.get_month_stats`: `f"{year+1}-01-01"`
when `month == 12`, else `f"{year}-{month+1:02d}-01"`. -/
def monthEndBytes (year : Int) (month : Nat) : List Nat :=
  if month = 12 then intBytes (year + 1) ++ [45, 48, 49, 45, 48, 49]
  else intBytes year ++ [45] ++ pad2 (month + 1) ++ [45, 48, 49]

/-- Python `str.split(sep)` for a one-byte separator. -/
def splitOnByte (b : Nat) : List Nat → List (List Nat)
  | [] => [[]]
  | c :: cs =>
      if c = b then [] :: splitOnByte b cs
      else
        match splitOnByte b cs with
        | [] => [[c]]
        | h :: t => (c :: h) :: t

/-- ASCII lower-casing of a byte (`str.lower()` on the command tokens). -/
def toLowerByte (c : Nat) : Nat := if 65 ≤ c ∧ c ≤ 90 then c + 32 else c

def toLowerBytes (l : List Nat) : List Nat := l.map toLowerByte

def weekBytes : List Nat := [119, 101, 101, 107]

def monthTokenBytes : List Nat := [109, 111, 110, 116, 104]

/-- Digit-run scanner for Python `int(str)`: digits with single grouping
underscores allowed strictly between digits. -/
def parseDigitsGo : Nat → List Nat → Option Nat
  | acc, [] => some acc
  | acc, 95 :: c :: cs =>
      if 48 ≤ c ∧ c ≤ 57 then parseDigitsGo (acc * 10 + (c - 48)) cs else none
  | acc, c :: cs =>
      if 48 ≤ c ∧ c ≤ 57 then parseDigitsGo (acc * 10 + (c - 48)) cs else none

def parseDigits : List Nat → Option Nat
  | [] => none
  | c :: cs => if 48 ≤ c ∧ c ≤ 57 then parseDigitsGo (c - 48) cs else none

/-- Python `int(token)` on a whitespace-free token: optional single sign then
digits; `none` models the `ValueError`. -/
def parseInt : List Nat → Option Int
  | 43 :: rest => (parseDigits rest).map (fun n => (n : Int))
  | 45 :: rest => (parseDigits rest).map (fun n => -(n : Int))
  | l => (parseDigits l).map (fun n => (n : Int))

/-- The `datetime.date(year, month, day)` constructor: `some` exactly when the
arguments pass its validation, `none` models the `ValueError`. -/
def mkDate (y m d : Int) : Option Date :=
  if 1 ≤ y ∧ y ≤ 9999 ∧ 1 ≤ m ∧ m ≤ 12 ∧ 1 ≤ d ∧ d ≤ (daysInMonth y.toNat m.toNat : Int)
  then some ⟨y.toNat, m.toNat, d.toNat⟩
  else none

/-- One row of the `sneezes` table (the `id` and `created_at` columns play no
role in any query modelled here). -/
structure Row where
  user_id : Int
  date : List Nat
  count : Int
deriving DecidableEq, Repr

/-- The table contents, in rowid (insertion) order. -/
abbrev Db := List Row

def rowMatches (u : Int) (dt : List Nat) (r : Row) : Bool :=
  r.user_id == u && r.date == dt

/-- The `UNIQUE(user_id, date)` constraint: at most one row per key. -/
def Db.wf (db : Db) : Prop :=
  List.Pairwise (fun r1 r2 => ¬(r1.user_id = r2.user_id ∧ r1.date = r2.date)) db

/-- `Database.add_sneeze`: `INSERT ... ON CONFLICT(user_id, date) DO UPDATE
SET count = ?` — overwrite on conflict, insert otherwise. -/
def add_sneeze (db : Db) (u : Int) (dt : List Nat) (cnt : Int) : Db :=
  if db.any (rowMatches u dt) then
    db.map (fun r => if rowMatches u dt r then { r with count := cnt } else r)
  else db ++ [⟨u, dt, cnt⟩]

/-- `Database.update_date_count`: `UPDATE ... SET count = ?`; when
`cursor.rowcount == 0`, plain `INSERT`. -/
def update_date_count (db : Db) (u : Int) (dt : List Nat) (cnt : Int) : Db :=
  if db.any (rowMatches u dt) then
    db.map (fun r => if rowMatches u dt r then { r with count := cnt } else r)
  else db ++ [⟨u, dt, cnt⟩]

/-- `Database.increment_sneeze`: `UPDATE ... SET count = count + 1`; when
`cursor.rowcount == 0`, `INSERT ... VALUES (?, ?, 1)`; then `SELECT count`
(first matching row). Returns the fetched count and the new table. -/
def increment_sneeze (db : Db) (u : Int) (dt : List Nat) : Option Int × Db :=
  let db2 :=
    if db.any (rowMatches u dt) then
      db.map (fun r => if rowMatches u dt r then { r with count := r.count + 1 } else r)
    else db ++ [⟨u, dt, 1⟩]
  ((db2.find? (rowMatches u dt)).map (fun r => r.count), db2)

/-- `Database.get_date_count`: `SELECT count ... WHERE user_id = ? AND date = ?`. -/
def get_date_count (db : Db) (u : Int) (dt : List Nat) : Option Int :=
  (db.find? (rowMatches u dt)).map (fun r => r.count)

/-- Insertion sort used to model the SQL `ORDER BY` clauses (the order among
tied elements is unspecified in SQL; insertion sort picks one). -/
def insertBy {α : Type} (le : α → α → Bool) (p : α) : List α → List α
  | [] => [p]
  | q :: qs => if le p q then p :: q :: qs else q :: insertBy le p qs

def sortBy {α : Type} (le : α → α → Bool) : List α → List α
  | [] => []
  | p :: ps => insertBy le p (sortBy le ps)

/-- `ORDER BY date` (ascending memcmp order). -/
def sortByDate : List (List Nat × Int) → List (List Nat × Int) :=
  sortBy (fun p q => memLe p.1 q.1)

/-- `Database.get_period_stats`: `SELECT date, count ... WHERE user_id = ?
AND date >= ? AND date < ? ORDER BY date`. -/
def get_period_stats (db : Db) (u : Int) (s e : List Nat) : List (List Nat × Int) :=
  sortByDate
    ((db.filter (fun r => r.user_id == u && memLe s r.date && memLt r.date e)).map
      (fun r => (r.date, r.count)))

/-- `Database.get_month_stats`: computes the month's string bounds, then runs
the same `SELECT` as `get_period_stats`. -/
def get_month_stats (db : Db) (u : Int) (year : Int) (month : Nat) :
    List (List Nat × Int) :=
  get_period_stats db u (monthStartBytes year month) (monthEndBytes year month)

/-- `Database.get_week_stats`: `start = target - timedelta(days=6)`,
`end = target + timedelta(days=1)`, then `get_period_stats`; `none` models the
uncaught OverflowError of the day arithmetic. -/
def get_week_stats (db : Db) (u : Int) (target : Date) :
    Option (List (List Nat × Int)) :=
  match subDays6 target, succOpt target with
  | some s, some e => some (get_period_stats db u (isoBytes s) (isoBytes e))
  | _, _ => none

/-- Distinct values in first-appearance order (`GROUP BY user_id` groups). -/
def dedupGo (seen : List Int) : List Int → List Int
  | [] => []
  | x :: xs => if x ∈ seen then dedupGo seen xs else x :: dedupGo (x :: seen) xs

def dedupKeep (l : List Int) : List Int := dedupGo [] l

/-- `ORDER BY total DESC`. -/
def sortDescByTotal : List (Int × Int) → List (Int × Int) :=
  sortBy (fun p q => decide (q.2 ≤ p.2))

/-- `Database.get_all_users_stats`: the date filter is applied only under
`if start_date and end_date` — with either bound absent the query is fully
unbounded; then `SELECT user_id, SUM(count) ... GROUP BY user_id ORDER BY
total DESC`. -/
def get_all_users_stats (db : Db) (s e : Option (List Nat)) : List (Int × Int) :=
  let rows : Db :=
    match s, e with
    | some sb, some eb => db.filter (fun (r : Row) => memLe sb r.date && memLt r.date eb)
    | _, _ => db
  sortDescByTotal
    ((dedupKeep (rows.map (fun (r : Row) => r.user_id))).map
      (fun uid =>
        (uid, ((rows.filter (fun (r : Row) => r.user_id == uid)).map
          (fun (r : Row) => r.count)).sum)))

/-- `DD.MM` rendering of one breakdown line in `format_stats`:
`day_parts = day_date.split('-')`, then `f"{day_parts[2]}.{day_parts[1]}"`
(stored dates always have three parts). -/
def ddmm (dt : List Nat) : List Nat :=
  ((splitOnByte 45 dt).getD 2 []) ++ [46] ++ ((splitOnByte 45 dt).getD 1 [])

/-- Structured content of the reply built by `bot.format_stats`: either the
"no records for this period" message, or the summary with day count, total,
mean (`total / len(stats)`, modelled exactly over ℚ) and the per-day
breakdown lines. -/
inductive FormatResult where
  | noRecords : FormatResult
  | summary (dayCount : Nat) (total : Int) (avg : ℚ)
      (lines : List (List Nat × Int)) : FormatResult
deriving DecidableEq

/-- `bot.format_stats`. -/
def format_stats (stats : List (List Nat × Int)) : FormatResult :=
  if stats.isEmpty then .noRecords
  else
    let total := (stats.map (fun p => p.2)).sum
    .summary stats.length total ((total : ℚ) / (stats.length : ℚ))
      (stats.map (fun p => (ddmm p.1, p.2)))

/-- Outcome of one `/stats` invocation (`bot.show_stats`): which user-visible
reply is produced, or `crash` for an exception that its
`except ValueError` does not catch (OverflowError from date arithmetic). -/
inductive StatsOutcome where
  | invalidFormat : StatsOutcome
  | invalidRange : StatsOutcome
  | invalidMonth : StatsOutcome
  | crash : StatsOutcome
  | stats (rows : List (List Nat × Int)) : StatsOutcome
deriving DecidableEq

/-- `bot.show_stats`: dispatch on `context.args`.  `user_today` is
`get_user_date_from_message(update)` (the message timestamp's date) and `now`
is `datetime.now(timezone.utc)` (the server clock); note the one-argument
`month` branch reads `now`, every other branch reads `user_today`.
Comparison of parsed dates (`start_date > end_date`) is by chronological
order, i.e. key order. -/
def show_stats (db : Db) (u : Int) (user_today : Date) (now : Date)
    (args : List (List Nat)) : StatsOutcome :=
  match args with
  | [] =>
      match get_week_stats db u user_today with
      | some rows => .stats rows
      | none => .crash
  | [a] =>
      if toLowerBytes a = weekBytes then
        match get_week_stats db u user_today with
        | some rows => .stats rows
        | none => .crash
      else if toLowerBytes a = monthTokenBytes then
        .stats (get_month_stats db u (now.year : Int) now.month)
      else .invalidFormat
  | [a, b] =>
      let p1 := splitOnByte 46 a
      let p2 := splitOnByte 46 b
      if p1.length = 3 ∧ p2.length = 3 then
        match parseInt (p1.getD 0 []), parseInt (p1.getD 1 []), parseInt (p1.getD 2 []),
              parseInt (p2.getD 0 []), parseInt (p2.getD 1 []), parseInt (p2.getD 2 []) with
        | some d1, some m1, some y1, some d2, some m2, some y2 =>
            match mkDate y1 m1 d1, mkDate y2 m2 d2 with
            | some s, some e =>
                match succOpt e with
                | none => .crash
                | some e1 =>
                    if e1.key < s.key then .invalidRange
                    else .stats (get_period_stats db u (isoBytes s) (isoBytes e1))
            | _, _ => .invalidFormat
        | _, _, _, _, _, _ => .invalidFormat
      else
        match parseInt a, parseInt b with
        | some mo, some yr =>
            if mo < 1 ∨ 12 < mo then .invalidMonth
            else .stats (get_month_stats db u yr mo.toNat)
        | _, _ => .invalidFormat
  | _ => .invalidFormat

/-- Outcome of one `/edit` invocation (`bot.edit_date`). -/
inductive EditOutcome where
  | invalidFormat : EditOutcome
  | negativeCount : EditOutcome
  | ok (db : Db) : EditOutcome
deriving DecidableEq

/-- `bot.edit_date`: parse `DD.MM.YYYY` and the count, reject a negative
count, then `Database.update_date_count`. -/
def edit_date (db : Db) (u : Int) (args : List (List Nat)) : EditOutcome :=
  match args with
  | [dateTok, countTok] =>
      let parts := splitOnByte 46 dateTok
      if parts.length = 3 then
        match parseInt (parts.getD 0 []), parseInt (parts.getD 1 []),
              parseInt (parts.getD 2 []) with
        | some d, some m, some y =>
            match mkDate y m d with
            | some dt =>
                match parseInt countTok with
                | some c =>
                    if c < 0 then .negativeCount
                    else .ok (update_date_count db u (isoBytes dt) c)
                | none => .invalidFormat
            | none => .invalidFormat
        | _, _, _ => .invalidFormat
      else .invalidFormat
  | _ => .invalidFormat

theorem insertBy_perm {α : Type} (le : α → α → Bool) (p : α) (l : List α) :
    (insertBy le p l).Perm (p :: l) := by
  induction l with
  | nil => exact List.Perm.refl _
  | cons q qs ih =>
      unfold insertBy
      split
      · exact List.Perm.refl _
      · exact ((ih.cons q).trans (List.Perm.swap p q qs))

theorem sortBy_perm {α : Type} (le : α → α → Bool) (l : List α) :
    (sortBy le l).Perm l := by
  induction l with
  | nil => exact List.Perm.refl _
  | cons p ps ih => exact (insertBy_perm le p (sortBy le ps)).trans (ih.cons p)

theorem mem_sortBy {α : Type} {le : α → α → Bool} {l : List α} {x : α} :
    x ∈ sortBy le l ↔ x ∈ l := (sortBy_perm le l).mem_iff

theorem length_sortBy {α : Type} (le : α → α → Bool) (l : List α) :
    (sortBy le l).length = l.length := (sortBy_perm le l).length_eq

theorem insertBy_pairwise {α : Type} {le : α → α → Bool} {R : α → α → Prop}
    (hT : ∀ a b, le a b = true → R a b) (hF : ∀ a b, le a b = false → R b a)
    (hTrans : ∀ a b c, R a b → R b c → R a c)
    {p : α} {l : List α} (h : l.Pairwise R) : (insertBy le p l).Pairwise R := by
  induction l with
  | nil => simp [insertBy]
  | cons q qs ih =>
      unfold insertBy
      rcases hle : le p q with _ | _
      · simp only [Bool.false_eq_true, if_false]
        rcases List.pairwise_cons.mp h with ⟨hq, hqs⟩
        refine List.pairwise_cons.mpr ⟨?_, ih hqs⟩
        intro x hx
        rcases List.mem_cons.mp (((insertBy_perm le p qs).mem_iff).mp hx) with hx0 | hx0
        · rw [hx0]; exact hF p q hle
        · exact hq x hx0
      · simp only [if_true]
        rcases List.pairwise_cons.mp h with ⟨hq, hqs⟩
        refine List.pairwise_cons.mpr ⟨?_, h⟩
        intro x hx
        rcases List.mem_cons.mp hx with hx0 | hx0
        · rw [hx0]; exact hT p q hle
        · exact hTrans p q x (hT p q hle) (hq x hx0)

theorem sortBy_pairwise {α : Type} {le : α → α → Bool} {R : α → α → Prop}
    (hT : ∀ a b, le a b = true → R a b) (hF : ∀ a b, le a b = false → R b a)
    (hTrans : ∀ a b c, R a b → R b c → R a c)
    (l : List α) : (sortBy le l).Pairwise R := by
  induction l with
  | nil => simp [sortBy]
  | cons p ps ih => exact insertBy_pairwise hT hF hTrans ih

theorem mem_dedupGo {seen : List Int} {l : List Int} {x : Int} :
    x ∈ dedupGo seen l ↔ x ∈ l ∧ x ∉ seen := by
  induction l generalizing seen with
  | nil => simp [dedupGo]
  | cons y ys ih =>
      unfold dedupGo
      by_cases hc : y ∈ seen
      · rw [if_pos hc, ih, List.mem_cons]
        constructor
        · rintro ⟨h1, h2⟩
          exact ⟨Or.inr h1, h2⟩
        · rintro ⟨rfl | h1, h2⟩
          · exact absurd hc h2
          · exact ⟨h1, h2⟩
      · rw [if_neg hc, List.mem_cons, List.mem_cons]
        constructor
        · rintro (rfl | hmem)
          · exact ⟨Or.inl rfl, hc⟩
          · rcases ih.mp hmem with ⟨h1, h2⟩
            exact ⟨Or.inr h1, fun hm => h2 (List.mem_cons_of_mem _ hm)⟩
        · rintro ⟨rfl | h1, h2⟩
          · exact Or.inl rfl
          · by_cases hxy : x = y
            · exact Or.inl hxy
            · refine Or.inr (ih.mpr ⟨h1, fun hm => ?_⟩)
              rcases List.mem_cons.mp hm with h3 | h3
              · exact hxy h3
              · exact h2 h3

theorem nodup_dedupGo (l : List Int) : ∀ seen, (dedupGo seen l).Nodup := by
  induction l with
  | nil => intro seen; simp [dedupGo]
  | cons y ys ih =>
      intro seen
      unfold dedupGo
      by_cases hc : y ∈ seen
      · rw [if_pos hc]; exact ih seen
      · rw [if_neg hc]
        refine List.nodup_cons.mpr ⟨?_, ih (y :: seen)⟩
        intro hmem
        exact (mem_dedupGo.mp hmem).2 (List.mem_cons_self y seen)

theorem mem_dedupKeep {l : List Int} {x : Int} : x ∈ dedupKeep l ↔ x ∈ l := by
  unfold dedupKeep
  rw [mem_dedupGo]
  simp

theorem nodup_dedupKeep (l : List Int) : (dedupKeep l).Nodup := nodup_dedupGo l []

theorem rowMatches_iff {u : Int} {dt : List Nat} {r : Row} :
    rowMatches u dt r = true ↔ r.user_id = u ∧ r.date = dt := by
  simp [rowMatches]

theorem rowMatches_mk (u : Int) (dt : List Nat) (c : Int) :
    rowMatches u dt ⟨u, dt, c⟩ = true := by
  simp [rowMatches]

theorem rowMatches_set_count (u : Int) (dt : List Nat) (r : Row) (c : Int) :
    rowMatches u dt { r with count := c } = rowMatches u dt r := by
  cases r; rfl

theorem find?_eq_head_filter {α : Type} (p : α → Bool) (l : List α) :
    l.find? p = (l.filter p).head? := by
  induction l with
  | nil => rfl
  | cons x xs ih =>
      rcases hp : p x with _ | _
      · rw [List.find?_cons_of_neg _ (by simp [hp]), List.filter_cons_of_neg (by simp [hp]), ih]
      · rw [List.find?_cons_of_pos _ hp, List.filter_cons_of_pos hp]
        rfl

theorem filter_map_update (u : Int) (dt : List Nat) (g : Row → Int) (db : Db) :
    ((db.map (fun r => if rowMatches u dt r then { r with count := g r } else r)).filter
        (rowMatches u dt)) =
      (db.filter (rowMatches u dt)).map (fun r => { r with count := g r }) := by
  induction db with
  | nil => rfl
  | cons r rs ih =>
      simp only [List.map_cons]
      rcases hm : rowMatches u dt r with _ | _
      · rw [if_neg (by simp [hm]), List.filter_cons_of_neg (by simp [hm]),
            List.filter_cons_of_neg (by simp [hm]), ih]
      · rw [if_pos rfl, List.filter_cons_of_pos (by rw [rowMatches_set_count]; exact hm),
            List.filter_cons_of_pos hm, List.map_cons, ih]

theorem filter_not_map_update (u : Int) (dt : List Nat) (g : Row → Int) (db : Db) :
    ((db.map (fun r => if rowMatches u dt r then { r with count := g r } else r)).filter
        (fun r => !(rowMatches u dt r))) =
      db.filter (fun r => !(rowMatches u dt r)) := by
  induction db with
  | nil => rfl
  | cons r rs ih =>
      simp only [List.map_cons]
      rcases hm : rowMatches u dt r with _ | _
      · rw [if_neg (by simp [hm]), List.filter_cons_of_pos (by simp [hm]),
            List.filter_cons_of_pos (by simp [hm]), ih]
      · rw [if_pos rfl, List.filter_cons_of_neg (by simp [rowMatches_set_count, hm]),
            List.filter_cons_of_neg (by simp [hm]), ih]

theorem keys_update (u : Int) (dt : List Nat) (g : Row → Int) (r : Row) :
    (if rowMatches u dt r then { r with count := g r } else r).user_id = r.user_id ∧
      (if rowMatches u dt r then { r with count := g r } else r).date = r.date := by
  split <;> (cases r; exact ⟨rfl, rfl⟩)

/-- The unique-key invariant restricted to a filter. -/
theorem wf_filter_single {db : Db} (hwf : db.wf) (u : Int) (dt : List Nat)
    (hany : db.any (rowMatches u dt) = true) :
    ∃ r : Row, db.filter (rowMatches u dt) = [r] ∧ r.user_id = u ∧ r.date = dt := by
  obtain ⟨r, hr, hrm⟩ := List.any_eq_true.mp hany
  have hrf : r ∈ db.filter (rowMatches u dt) := List.mem_filter.mpr ⟨hr, hrm⟩
  have hpw : (db.filter (rowMatches u dt)).Pairwise
      (fun r1 r2 => ¬(r1.user_id = r2.user_id ∧ r1.date = r2.date)) := hwf.filter _
  cases hfl : db.filter (rowMatches u dt) with
  | nil => rw [hfl] at hrf; cases hrf
  | cons r1 rest =>
      cases rest with
      | nil =>
          have h1 : r1 ∈ db.filter (rowMatches u dt) := by rw [hfl]; exact List.mem_cons_self _ _
          have hm1 := rowMatches_iff.mp (List.of_mem_filter h1)
          exact ⟨r1, rfl, hm1.1, hm1.2⟩
      | cons r2 rest2 =>
          exfalso
          rw [hfl] at hpw
          rcases List.pairwise_cons.mp hpw with ⟨h12, _⟩
          have h1 : r1 ∈ db.filter (rowMatches u dt) := by rw [hfl]; exact List.mem_cons_self _ _
          have h2 : r2 ∈ db.filter (rowMatches u dt) := by
            rw [hfl]; exact List.mem_cons_of_mem _ (List.mem_cons_self _ _)
          have hm1 := rowMatches_iff.mp (List.of_mem_filter h1)
          have hm2 := rowMatches_iff.mp (List.of_mem_filter h2)
          exact h12 r2 (List.mem_cons_self _ _) ⟨hm1.1.trans hm2.1.symm, hm1.2.trans hm2.2.symm⟩

theorem wf_upsert {db : Db} (hwf : db.wf) (u : Int) (dt : List Nat) (c : Int) :
    (add_sneeze db u dt c).wf := by
  unfold add_sneeze
  rcases hany : db.any (rowMatches u dt) with _ | _
  · rw [if_neg Bool.false_ne_true]
    unfold Db.wf
    rw [List.pairwise_append]
    refine ⟨hwf, List.pairwise_singleton _ _, ?_⟩
    intro a ha b hb
    rcases List.mem_singleton.mp hb with rfl
    intro hk
    have : rowMatches u dt a = true := rowMatches_iff.mpr ⟨hk.1, hk.2⟩
    rcases List.any_eq_false.mp (by simpa using hany) a ha with hfalse
    simp [this] at hfalse
  · rw [if_pos rfl]
    unfold Db.wf
    refine List.Pairwise.map _ ?_ hwf
    intro a b hab hk
    rcases keys_update u dt (fun _ => c) a with ⟨ka1, ka2⟩
    rcases keys_update u dt (fun _ => c) b with ⟨kb1, kb2⟩
    exact hab ⟨(ka1.symm.trans hk.1).trans kb1, (ka2.symm.trans hk.2).trans kb2⟩

/-- After a conflict-update, the matching rows carry the new count and the
others are untouched. -/
theorem filter_upsert {db : Db} (hwf : db.wf) (u : Int) (dt : List Nat) (c : Int) :
    (add_sneeze db u dt c).filter (rowMatches u dt) = [⟨u, dt, c⟩] := by
  unfold add_sneeze
  rcases hany : db.any (rowMatches u dt) with _ | _
  · rw [if_neg Bool.false_ne_true, List.filter_append]
    rw [List.filter_eq_nil_iff.mpr (fun r hr => by
      rcases List.any_eq_false.mp (by simpa using hany) r hr with hfalse
      simp [hfalse])]
    simp [rowMatches_mk]
  · rw [if_pos rfl, filter_map_update]
    obtain ⟨r, hfl, hu, hdt⟩ := wf_filter_single hwf u dt hany
    rw [hfl]
    cases r
    simp_all

theorem filter_not_upsert (u : Int) (dt : List Nat) (c : Int) (db : Db) :
    (add_sneeze db u dt c).filter (fun r => !(rowMatches u dt r)) =
      db.filter (fun r => !(rowMatches u dt r)) := by
  unfold add_sneeze
  rcases hany : db.any (rowMatches u dt) with _ | _
  · rw [if_neg Bool.false_ne_true, List.filter_append]
    simp [rowMatches_mk]
  · rw [if_pos rfl, filter_not_map_update]

theorem increment_no_row {db : Db} {u : Int} {dt : List Nat}
    (h : db.any (rowMatches u dt) = false) :
    increment_sneeze db u dt = (some 1, db ++ [⟨u, dt, 1⟩]) := by
  unfold increment_sneeze
  rw [if_neg (by simp [h])]
  dsimp only
  rw [find?_eq_head_filter, List.filter_append]
  rw [List.filter_eq_nil_iff.mpr (fun r hr => by
    rcases List.any_eq_false.mp (by simpa using h) r hr with hfalse
    simp [hfalse])]
  simp [rowMatches_mk]

theorem increment_single_row {db : Db} {u : Int} {dt : List Nat} {c : Int}
    (h : (db.filter (rowMatches u dt)).map (fun r => r.count) = [c]) :
    (increment_sneeze db u dt).1 = some (c + 1) := by
  have hne : db.filter (rowMatches u dt) ≠ [] := by
    intro h0
    rw [h0] at h
    cases h
  obtain ⟨r, hr⟩ := List.exists_mem_of_ne_nil _ hne
  have hany : db.any (rowMatches u dt) = true :=
    List.any_eq_true.mpr ⟨r, List.mem_of_mem_filter hr, List.of_mem_filter hr⟩
  unfold increment_sneeze
  rw [if_pos hany]
  dsimp only
  rw [find?_eq_head_filter, filter_map_update]
  cases hfl : db.filter (rowMatches u dt) with
  | nil => exact absurd hfl hne
  | cons r1 rest =>
      rw [hfl] at h
      cases rest with
      | nil =>
          simp only [List.map_cons, List.map_nil, List.head?_cons, Option.map_some]
          simp only [List.map_cons, List.map_nil] at h
          have : r1.count = c := by
            injection h with h1 h2
          simp [this]
      | cons r2 rest2 =>
          simp only [List.map_cons] at h
          injection h with h1 h2
          cases h2

/-- The row written by `update_date_count` is in the table afterwards. -/
theorem mem_update_date_count (db : Db) (u : Int) (dt : List Nat) (c : Int) :
    (⟨u, dt, c⟩ : Row) ∈ update_date_count db u dt c := by
  unfold update_date_count
  rcases hany : db.any (rowMatches u dt) with _ | _
  · rw [if_neg Bool.false_ne_true]
    exact List.mem_append_right _ (List.mem_singleton.mpr rfl)
  · rw [if_pos rfl]
    obtain ⟨r, hr, hrm⟩ := List.any_eq_true.mp hany
    rcases rowMatches_iff.mp hrm with ⟨hu, hdt⟩
    refine List.mem_map.mpr ⟨r, hr, ?_⟩
    rw [if_pos hrm]
    cases r
    simp_all

theorem natDigitsGo_d1 {n : Nat} (f : Nat) (h : n < 10) :
    natDigitsGo (f + 1) n = [48 + n] := by
  unfold natDigitsGo
  rw [if_pos h]

theorem natDigitsGo_d2 {n : Nat} (f : Nat) (h1 : 10 ≤ n) (h2 : n < 100) :
    natDigitsGo (f + 2) n = [48 + n / 10, 48 + n % 10] := by
  show natDigitsGo (f + 1 + 1) n = _
  unfold natDigitsGo
  rw [if_neg (by omega), natDigitsGo_d1 f (by omega)]
  rfl

theorem natDigitsGo_d3 {n : Nat} (f : Nat) (h1 : 100 ≤ n) (h2 : n < 1000) :
    natDigitsGo (f + 3) n = [48 + n / 100, 48 + n / 10 % 10, 48 + n % 10] := by
  show natDigitsGo (f + 2 + 1) n = _
  unfold natDigitsGo
  rw [if_neg (by omega), natDigitsGo_d2 f (by omega) (by omega)]
  rw [show n / 10 / 10 = n / 100 by omega, show n / 10 % 10 = n / 10 % 10 from rfl]
  rfl

theorem natDigitsGo_d4 {n : Nat} (f : Nat) (h1 : 1000 ≤ n) (h2 : n < 10000) :
    natDigitsGo (f + 4) n =
      [48 + n / 1000, 48 + n / 100 % 10, 48 + n / 10 % 10, 48 + n % 10] := by
  show natDigitsGo (f + 3 + 1) n = _
  unfold natDigitsGo
  rw [if_neg (by omega), natDigitsGo_d3 f (by omega) (by omega)]
  rw [show n / 10 / 100 = n / 1000 by omega, show n / 10 / 10 % 10 = n / 100 % 10 by omega]
  rfl

theorem natDigits_4digit {n : Nat} (h1 : 1000 ≤ n) (h2 : n ≤ 9999) :
    natDigits n = [48 + n / 1000, 48 + n / 100 % 10, 48 + n / 10 % 10, 48 + n % 10] := by
  unfold natDigits
  rw [show n + 1 = (n - 3) + 4 by omega]
  exact natDigitsGo_d4 (n - 3) h1 (by omega)

theorem monthStartBytes_eq_iso {Y M : Nat} (h1 : 1000 ≤ Y) (h2 : Y ≤ 9999)
    (h3 : 1 ≤ M) (h4 : M ≤ 12) :
    monthStartBytes (Y : Int) M = isoBytes ⟨Y, M, 1⟩ := by
  unfold monthStartBytes intBytes pad2
  rw [if_neg (by omega), if_pos (by omega)]
  rw [Int.toNat_natCast, natDigits_4digit h1 h2]
  simp [isoBytes]

theorem monthEndBytes_eq_iso_lt {Y M : Nat} (h1 : 1000 ≤ Y) (h2 : Y ≤ 9999)
    (h3 : 1 ≤ M) (h4 : M < 12) :
    monthEndBytes (Y : Int) M = isoBytes ⟨Y, M + 1, 1⟩ := by
  unfold monthEndBytes intBytes pad2
  rw [if_neg (by omega), if_neg (by omega), if_pos (by omega)]
  rw [Int.toNat_natCast, natDigits_4digit h1 h2]
  simp [isoBytes]

theorem monthEndBytes_eq_iso_12 {Y : Nat} (h1 : 1000 ≤ Y) (h2 : Y + 1 ≤ 9999) :
    monthEndBytes (Y : Int) 12 = isoBytes ⟨Y + 1, 1, 1⟩ := by
  unfold monthEndBytes intBytes
  rw [if_pos rfl, if_neg (by omega)]
  rw [show ((Y : Int) + 1).toNat = Y + 1 by omega]
  rw [natDigits_4digit (by omega) h2]
  simp [isoBytes]

theorem mkDate_valid {y m d : Int} {s : Date} (h : mkDate y m d = some s) : s.valid := by
  unfold mkDate at h
  split_ifs at h with hc
  cases h
  obtain ⟨c1, c2, c3, c4, c5, c6⟩ := hc
  exact ⟨by show 1 ≤ y.toNat; omega, by show y.toNat ≤ 9999; omega,
    by show 1 ≤ m.toNat; omega, by show m.toNat ≤ 12; omega,
    by show 1 ≤ d.toNat; omega, by show d.toNat ≤ daysInMonth y.toNat m.toNat; omega⟩

theorem mkDate_fields {y m d : Int} {s : Date} (h : mkDate y m d = some s) :
    (s.year : Int) = y ∧ (s.month : Int) = m ∧ (s.day : Int) = d := by
  unfold mkDate at h
  split_ifs at h with hc
  cases h
  obtain ⟨c1, c2, c3, c4, c5, c6⟩ := hc
  exact ⟨by show ((y.toNat : Int)) = y; omega, by show ((m.toNat : Int)) = m; omega,
    by show ((d.toNat : Int)) = d; omega⟩

theorem format_stats_nil : format_stats [] = .noRecords := rfl

theorem format_stats_ne_nil {stats : List (List Nat × Int)} (h : stats ≠ []) :
    format_stats stats =
      .summary stats.length ((stats.map (fun p => p.2)).sum)
        ((((stats.map (fun p => p.2)).sum : Int) : ℚ) / (stats.length : ℚ))
        (stats.map (fun p => (ddmm p.1, p.2))) := by
  unfold format_stats
  rw [if_neg (by simpa [List.isEmpty_iff] using h)]

/-- Unfolding of the two-date branch of `show_stats` under parse hypotheses. -/
theorem show_stats_two_dates {t1 t2 a1 b1 c1 a2 b2 c2 : List Nat}
    {dd1 mm1 yy1 dd2 mm2 yy2 : Int} {s e : Date}
    (hs1 : splitOnByte 46 t1 = [a1, b1, c1]) (hs2 : splitOnByte 46 t2 = [a2, b2, c2])
    (hp1 : parseInt a1 = some dd1) (hp2 : parseInt b1 = some mm1)
    (hp3 : parseInt c1 = some yy1) (hp4 : parseInt a2 = some dd2)
    (hp5 : parseInt b2 = some mm2) (hp6 : parseInt c2 = some yy2)
    (hm1 : mkDate yy1 mm1 dd1 = some s) (hm2 : mkDate yy2 mm2 dd2 = some e)
    (db : Db) (u : Int) (today now : Date) :
    show_stats db u today now [t1, t2] =
      (match succOpt e with
       | none => StatsOutcome.crash
       | some e1 =>
           if e1.key < s.key then StatsOutcome.invalidRange
           else StatsOutcome.stats (get_period_stats db u (isoBytes s) (isoBytes e1))) := by
  unfold show_stats
  simp only [hs1, hs2, hp1, hp2, hp3, hp4, hp5, hp6, hm1, hm2,
    List.getD_cons_zero, List.getD_cons_succ, List.length_cons, List.length_nil]
  norm_num

/-- C1 (amended): for two `D.M.Y` tokens parsing to valid dates `s ≤ e` with
`e` before 9999-12-31 (so that `e + 1 day` exists), `/stats` runs the period
query over the half-open byte range `[iso(s), iso(succ e))`, and that range
admits exactly the valid days `s ≤ d ≤ e`; when the two parsed dates are
equal the admitted set is the single day `s`. -/
theorem c1_range_resolution {t1 t2 a1 b1 c1 a2 b2 c2 : List Nat}
    {dd1 mm1 yy1 dd2 mm2 yy2 : Int} {s e e1 : Date}
    (hs1 : splitOnByte 46 t1 = [a1, b1, c1]) (hs2 : splitOnByte 46 t2 = [a2, b2, c2])
    (hp1 : parseInt a1 = some dd1) (hp2 : parseInt b1 = some mm1)
    (hp3 : parseInt c1 = some yy1) (hp4 : parseInt a2 = some dd2)
    (hp5 : parseInt b2 = some mm2) (hp6 : parseInt c2 = some yy2)
    (hm1 : mkDate yy1 mm1 dd1 = some s) (hm2 : mkDate yy2 mm2 dd2 = some e)
    (hord : s.key ≤ e.key) (hsucc : succOpt e = some e1)
    (db : Db) (u : Int) (today now : Date) :
    show_stats db u today now [t1, t2] =
      .stats (get_period_stats db u (isoBytes s) (isoBytes e1)) ∧
    (∀ d : Date, d.valid →
       ((memLe (isoBytes s) (isoBytes d) && memLt (isoBytes d) (isoBytes e1)) = true ↔
         (s.key ≤ d.key ∧ d.key ≤ e.key))) ∧
    (s.key = e.key → ∀ d : Date, d.valid →
       ((memLe (isoBytes s) (isoBytes d) && memLt (isoBytes d) (isoBytes e1)) = true ↔
         d.key = s.key)) := by
  have hsv : s.valid := mkDate_valid hm1
  have hev : e.valid := mkDate_valid hm2
  have he1v : e1.valid := succOpt_valid hev hsucc
  have hgt : e.key < e1.key := succOpt_key_gt hev hsucc
  have hiff : ∀ d : Date, d.valid →
      ((memLe (isoBytes s) (isoBytes d) && memLt (isoBytes d) (isoBytes e1)) = true ↔
        (s.key ≤ d.key ∧ d.key ≤ e.key)) := by
    intro d hd
    rw [Bool.and_eq_true, memLe_isoBytes (valid_inReprRange hsv) (valid_inReprRange hd),
      memLt_isoBytes (valid_inReprRange hd) (valid_inReprRange he1v),
      key_lt_succ_iff hd hev hsucc]
  refine ⟨?_, hiff, ?_⟩
  · rw [show_stats_two_dates hs1 hs2 hp1 hp2 hp3 hp4 hp5 hp6 hm1 hm2 db u today now]
    simp only [hsucc]
    rw [if_neg (by omega)]
  · intro heq d hd
    rw [hiff d hd]
    omega

/-- C1 counterexample: both tokens are `31.12.9999`, a valid calendar date
with start = end, but `end + 1 day` overflows (`except ValueError` does not
catch the OverflowError), so the command crashes instead of resolving the
single-day range. -/
theorem c1_overflow_counterexample :
    show_stats [] 1 ⟨2024, 1, 1⟩ ⟨2024, 1, 1⟩
        [[51, 49, 46, 49, 50, 46, 57, 57, 57, 57],
         [51, 49, 46, 49, 50, 46, 57, 57, 57, 57]] = .crash ∧
      (⟨9999, 12, 31⟩ : Date).valid ∧
      mkDate 9999 12 31 = some ⟨9999, 12, 31⟩ := by
  refine ⟨rfl, by decide, by decide⟩

/-- C1 witness: the theorem applied to the spec's own scenario
`01.01.2025 01.01.2025`. -/
theorem c1_range_resolution_witness :
    splitOnByte 46 [48, 49, 46, 48, 49, 46, 50, 48, 50, 53] =
        [[48, 49], [48, 49], [50, 48, 50, 53]] ∧
      show_stats [] 1 ⟨2024, 1, 1⟩ ⟨2024, 1, 1⟩
          [[48, 49, 46, 48, 49, 46, 50, 48, 50, 53],
           [48, 49, 46, 48, 49, 46, 50, 48, 50, 53]] =
        .stats (get_period_stats [] 1 (isoBytes ⟨2025, 1, 1⟩) (isoBytes ⟨2025, 1, 2⟩)) :=
  ⟨by decide,
    (@c1_range_resolution [48, 49, 46, 48, 49, 46, 50, 48, 50, 53]
      [48, 49, 46, 48, 49, 46, 50, 48, 50, 53] [48, 49] [48, 49] [50, 48, 50, 53]
      [48, 49] [48, 49] [50, 48, 50, 53] 1 1 2025 1 1 2025
      ⟨2025, 1, 1⟩ ⟨2025, 1, 1⟩ ⟨2025, 1, 2⟩ (by decide) (by decide) (by decide) (by decide)
      (by decide) (by decide) (by decide) (by decide) (by decide) (by decide) (by decide)
      (by decide) [] 1 ⟨2024, 1, 1⟩ ⟨2024, 1, 1⟩).1⟩

/-- C2 (amended): with both tokens parsing to valid dates and `e + 1 day`
representable, the resolver rejects with InvalidRange exactly when the parsed
start is after `end + 1 day` (not after `end`); the rejection consults no
store (the outcome is the same for every table) and otherwise the period
query runs. -/
theorem c2_invalid_range_boundary {t1 t2 a1 b1 c1 a2 b2 c2 : List Nat}
    {dd1 mm1 yy1 dd2 mm2 yy2 : Int} {s e e1 : Date}
    (hs1 : splitOnByte 46 t1 = [a1, b1, c1]) (hs2 : splitOnByte 46 t2 = [a2, b2, c2])
    (hp1 : parseInt a1 = some dd1) (hp2 : parseInt b1 = some mm1)
    (hp3 : parseInt c1 = some yy1) (hp4 : parseInt a2 = some dd2)
    (hp5 : parseInt b2 = some mm2) (hp6 : parseInt c2 = some yy2)
    (hm1 : mkDate yy1 mm1 dd1 = some s) (hm2 : mkDate yy2 mm2 dd2 = some e)
    (hsucc : succOpt e = some e1)
    (db : Db) (u : Int) (today now : Date) :
    (e1.key < s.key →
       ∀ db2 : Db, show_stats db2 u today now [t1, t2] = .invalidRange) ∧
    (s.key ≤ e1.key →
       show_stats db u today now [t1, t2] =
         .stats (get_period_stats db u (isoBytes s) (isoBytes e1))) := by
  constructor
  · intro hlt db2
    rw [show_stats_two_dates hs1 hs2 hp1 hp2 hp3 hp4 hp5 hp6 hm1 hm2 db2 u today now]
    simp only [hsucc]
    rw [if_pos hlt]
  · intro hle
    rw [show_stats_two_dates hs1 hs2 hp1 hp2 hp3 hp4 hp5 hp6 hm1 hm2 db u today now]
    simp only [hsucc]
    rw [if_neg (by omega)]

/-- C2 counterexample: `02.01.2025 01.01.2025` has parsed start strictly after
parsed end, yet the code accepts it (the comparison is against end + 1 day)
and answers with an empty period instead of InvalidRange. -/
theorem c2_counterexample :
    show_stats [] 1 ⟨2024, 1, 1⟩ ⟨2024, 1, 1⟩
        [[48, 50, 46, 48, 49, 46, 50, 48, 50, 53],
         [48, 49, 46, 48, 49, 46, 50, 48, 50, 53]] = .stats [] ∧
      mkDate 2025 1 2 = some ⟨2025, 1, 2⟩ ∧ mkDate 2025 1 1 = some ⟨2025, 1, 1⟩ ∧
      Date.key ⟨2025, 1, 1⟩ < Date.key ⟨2025, 1, 2⟩ := by
  refine ⟨rfl, by decide, by decide, by decide⟩

/-- C2 witness: `03.01.2025 01.01.2025` (start two days after end) is rejected
db-independently, and `01.01.2025 02.01.2025` is accepted. -/
theorem c2_invalid_range_boundary_witness :
    (∀ db2 : Db, show_stats db2 1 ⟨2024, 1, 1⟩ ⟨2024, 1, 1⟩
        [[48, 51, 46, 48, 49, 46, 50, 48, 50, 53],
         [48, 49, 46, 48, 49, 46, 50, 48, 50, 53]] = .invalidRange) ∧
      show_stats [] 1 ⟨2024, 1, 1⟩ ⟨2024, 1, 1⟩
          [[48, 49, 46, 48, 49, 46, 50, 48, 50, 53],
           [48, 50, 46, 48, 49, 46, 50, 48, 50, 53]] =
        .stats (get_period_stats [] 1 (isoBytes ⟨2025, 1, 1⟩) (isoBytes ⟨2025, 1, 3⟩)) :=
  ⟨fun db2 =>
     (@c2_invalid_range_boundary [48, 51, 46, 48, 49, 46, 50, 48, 50, 53]
       [48, 49, 46, 48, 49, 46, 50, 48, 50, 53] [48, 51] [48, 49] [50, 48, 50, 53]
       [48, 49] [48, 49] [50, 48, 50, 53] 3 1 2025 1 1 2025
       ⟨2025, 1, 3⟩ ⟨2025, 1, 1⟩ ⟨2025, 1, 2⟩ (by decide) (by decide) (by decide)
       (by decide) (by decide) (by decide) (by decide) (by decide) (by decide) (by decide)
       (by decide) db2 1 ⟨2024, 1, 1⟩ ⟨2024, 1, 1⟩).1 (by decide) db2,
   (@c2_invalid_range_boundary [48, 49, 46, 48, 49, 46, 50, 48, 50, 53]
       [48, 50, 46, 48, 49, 46, 50, 48, 50, 53] [48, 49] [48, 49] [50, 48, 50, 53]
       [48, 50] [48, 49] [50, 48, 50, 53] 1 1 2025 2 1 2025
       ⟨2025, 1, 1⟩ ⟨2025, 1, 2⟩ ⟨2025, 1, 3⟩ (by decide) (by decide) (by decide)
       (by decide) (by decide) (by decide) (by decide) (by decide) (by decide) (by decide)
       (by decide) [] 1 ⟨2024, 1, 1⟩ ⟨2024, 1, 1⟩).2 (by decide)⟩

theorem show_stats_empty_args (db : Db) (u : Int) (today now : Date) {ws we : Date}
    (h1 : subDays6 today = some ws) (h2 : succOpt today = some we) :
    show_stats db u today now [] =
      .stats (get_period_stats db u (isoBytes ws) (isoBytes we)) := by
  unfold show_stats get_week_stats
  rw [h1, h2]

/-- C5 (amended): when both `today - 6 days` and `today + 1 day` are
representable, the empty period specification and any token lower-casing to
`week` resolve identically to the period query over
`[iso(today - 6), iso(today + 1))`, whose scan admits exactly the valid days
`today - 6 .. today` inclusive. -/
theorem c5_week_resolution (db : Db) (u : Int) (today now : Date) (tok : List Nat)
    {ws we : Date} (htv : today.valid)
    (h1 : subDays6 today = some ws) (h2 : succOpt today = some we)
    (hw : toLowerBytes tok = weekBytes) :
    show_stats db u today now [] =
      .stats (get_period_stats db u (isoBytes ws) (isoBytes we)) ∧
    show_stats db u today now [tok] = show_stats db u today now [] ∧
    (∀ d : Date, d.valid →
       ((memLe (isoBytes ws) (isoBytes d) && memLt (isoBytes d) (isoBytes we)) = true ↔
         (ws.key ≤ d.key ∧ d.key ≤ today.key))) := by
  have hwsv : ws.valid := subDays6_valid htv h1
  have hwev : we.valid := succOpt_valid htv h2
  refine ⟨show_stats_empty_args db u today now h1 h2, ?_, ?_⟩
  · rw [show_stats_empty_args db u today now h1 h2]
    show (if toLowerBytes tok = weekBytes then _ else _) = _
    rw [if_pos hw]
    unfold get_week_stats
    rw [h1, h2]
  · intro d hd
    rw [Bool.and_eq_true, memLe_isoBytes (valid_inReprRange hwsv) (valid_inReprRange hd),
      memLt_isoBytes (valid_inReprRange hd) (valid_inReprRange hwev),
      key_lt_succ_iff hd htv h2]

/-- C5 counterexample: at reference-today 9999-12-31 (a representable date)
the `today + 1 day` computation overflows and the empty period specification
crashes instead of resolving to the last seven days. -/
theorem c5_overflow_counterexample :
    show_stats [] 1 ⟨9999, 12, 31⟩ ⟨2024, 1, 1⟩ [] = .crash ∧
      (⟨9999, 12, 31⟩ : Date).valid := ⟨rfl, by decide⟩

/-- C5 witness: reference-today 2025-01-10 (message date), token `WEEK`. -/
theorem c5_week_resolution_witness :
    subDays6 ⟨2025, 1, 10⟩ = some ⟨2025, 1, 4⟩ ∧
      show_stats [] 1 ⟨2025, 1, 10⟩ ⟨2024, 1, 1⟩ [] =
        .stats (get_period_stats [] 1 (isoBytes ⟨2025, 1, 4⟩) (isoBytes ⟨2025, 1, 11⟩)) ∧
      show_stats [] 1 ⟨2025, 1, 10⟩ ⟨2024, 1, 1⟩ [[87, 69, 69, 75]] =
        show_stats [] 1 ⟨2025, 1, 10⟩ ⟨2024, 1, 1⟩ [] := by
  have h := @c5_week_resolution [] 1 ⟨2025, 1, 10⟩ ⟨2024, 1, 1⟩ [87, 69, 69, 75]
    ⟨2025, 1, 4⟩ ⟨2025, 1, 11⟩ (by decide) (by decide) (by decide) (by decide)
  exact ⟨by decide, h.1, h.2.1⟩

/-- C8: `/stats month` reads the calendar month from the server wall clock
(`datetime.now(timezone.utc)`, bot.py line 300/324-325), not from the
message's own timestamp: with the same message date 2024-12-31, a server
clock of 2024-12-31 returns the December data while a server clock of
2025-01-01 returns January's (empty) data — while the empty and `week`
period specifications ignore the server clock entirely. -/
theorem c8_month_uses_server_clock :
    show_stats [⟨1, isoBytes ⟨2024, 12, 15⟩, 3⟩] 1 ⟨2024, 12, 31⟩ ⟨2024, 12, 31⟩
        [monthTokenBytes] = .stats [(isoBytes ⟨2024, 12, 15⟩, 3)] ∧
    show_stats [⟨1, isoBytes ⟨2024, 12, 15⟩, 3⟩] 1 ⟨2024, 12, 31⟩ ⟨2025, 1, 1⟩
        [monthTokenBytes] = .stats [] ∧
    (∀ now1 now2 : Date,
       show_stats [⟨1, isoBytes ⟨2024, 12, 15⟩, 3⟩] 1 ⟨2024, 12, 31⟩ now1 [] =
         show_stats [⟨1, isoBytes ⟨2024, 12, 15⟩, 3⟩] 1 ⟨2024, 12, 31⟩ now2 [] ∧
       show_stats [⟨1, isoBytes ⟨2024, 12, 15⟩, 3⟩] 1 ⟨2024, 12, 31⟩ now1 [weekBytes] =
         show_stats [⟨1, isoBytes ⟨2024, 12, 15⟩, 3⟩] 1 ⟨2024, 12, 31⟩ now2 [weekBytes]) := by
  refine ⟨rfl, rfl, fun now1 now2 => ⟨rfl, rfl⟩⟩

/-- C6: `increment` on a (subject, day) with no row inserts a row with
count 1 and returns 1; applied again it adds 1 and returns 2. -/
theorem c6_increment (db : Db) (u : Int) (dt : List Nat)
    (h : db.any (rowMatches u dt) = false) :
    increment_sneeze db u dt = (some 1, db ++ [⟨u, dt, 1⟩]) ∧
    (increment_sneeze (db ++ [⟨u, dt, 1⟩]) u dt).1 = some 2 := by
  refine ⟨increment_no_row h, ?_⟩
  have hone : ((db ++ [(⟨u, dt, 1⟩ : Row)]).filter (rowMatches u dt)).map
      (fun r => r.count) = [1] := by
    rw [List.filter_append, List.filter_eq_nil_iff.mpr (fun r hr => by
      rcases List.any_eq_false.mp (by simpa using h) r hr with hfalse
      simp [hfalse])]
    simp [rowMatches_mk]
  have h2 := increment_single_row hone
  simpa using h2

/-- C6 witness. -/
theorem c6_increment_witness :
    increment_sneeze [] 5 (isoBytes ⟨2025, 1, 1⟩) =
        (some 1, [⟨5, isoBytes ⟨2025, 1, 1⟩, 1⟩]) ∧
      (increment_sneeze [⟨5, isoBytes ⟨2025, 1, 1⟩, 1⟩] 5 (isoBytes ⟨2025, 1, 1⟩)).1 =
        some 2 :=
  c6_increment [] 5 (isoBytes ⟨2025, 1, 1⟩) (by decide)

/-- C7: upserting (subject, day) with `c1` then `c2` leaves exactly one row
for that key, carrying `c2` (overwrite, not additive), and the rows of every
other key are unchanged. -/
theorem c7_upsert_overwrite (db : Db) (u : Int) (dt : List Nat) (c1 c2 : Int)
    (hwf : db.wf) :
    (add_sneeze (add_sneeze db u dt c1) u dt c2).filter (rowMatches u dt) =
        [⟨u, dt, c2⟩] ∧
    (add_sneeze (add_sneeze db u dt c1) u dt c2).filter (fun r => !(rowMatches u dt r)) =
      db.filter (fun r => !(rowMatches u dt r)) := by
  refine ⟨filter_upsert (wf_upsert hwf u dt c1) u dt c2, ?_⟩
  rw [filter_not_upsert, filter_not_upsert]

/-- C7 witness. -/
theorem c7_upsert_overwrite_witness :
    (add_sneeze (add_sneeze [⟨2, isoBytes ⟨2025, 1, 1⟩, 9⟩] 1 (isoBytes ⟨2025, 1, 2⟩) 4)
          1 (isoBytes ⟨2025, 1, 2⟩) 7).filter (rowMatches 1 (isoBytes ⟨2025, 1, 2⟩)) =
        [⟨1, isoBytes ⟨2025, 1, 2⟩, 7⟩] ∧
      (add_sneeze (add_sneeze [⟨2, isoBytes ⟨2025, 1, 1⟩, 9⟩] 1 (isoBytes ⟨2025, 1, 2⟩) 4)
          1 (isoBytes ⟨2025, 1, 2⟩) 7).filter
          (fun r => !(rowMatches 1 (isoBytes ⟨2025, 1, 2⟩) r)) =
        ([⟨2, isoBytes ⟨2025, 1, 1⟩, 9⟩] : Db).filter
          (fun r => !(rowMatches 1 (isoBytes ⟨2025, 1, 2⟩) r)) :=
  c7_upsert_overwrite [⟨2, isoBytes ⟨2025, 1, 1⟩, 9⟩] 1 (isoBytes ⟨2025, 1, 2⟩) 4 7
    (by unfold Db.wf; exact List.pairwise_singleton _ _)

/-- C4: on a range-scan result, the formatter answers "no records" exactly
when the scan is empty (computing no average), and otherwise reports
`dayCount` = number of rows returned (the days with a record — under the
unique-key invariant those days are pairwise distinct — not the calendar days
in the range), `total` = sum of their counts, and `average = total/dayCount`. -/
theorem c4_format_stats (db : Db) (u : Int) (sb eb : List Nat)
    (stats : List (List Nat × Int)) (hwf : db.wf)
    (hstats : stats = get_period_stats db u sb eb) :
    (stats = [] → format_stats stats = .noRecords) ∧
    (stats ≠ [] →
       format_stats stats =
         .summary stats.length ((stats.map (fun p => p.2)).sum)
           ((((stats.map (fun p => p.2)).sum : Int) : ℚ) / (stats.length : ℚ))
           (stats.map (fun p => (ddmm p.1, p.2)))) ∧
    stats.length =
      (db.filter (fun r => r.user_id == u && memLe sb r.date && memLt r.date eb)).length ∧
    (stats.map Prod.fst).Nodup := by
  subst hstats
  refine ⟨fun h0 => by rw [h0]; rfl, fun hne => format_stats_ne_nil hne, ?_, ?_⟩
  · unfold get_period_stats sortByDate
    rw [length_sortBy, List.length_map]
  · unfold get_period_stats sortByDate
    have hperm := (sortBy_perm (fun (p q : List Nat × Int) => memLe p.1 q.1)
      ((db.filter (fun r => r.user_id == u && memLe sb r.date && memLt r.date eb)).map
        (fun r => (r.date, r.count)))).map Prod.fst
    rw [hperm.nodup_iff, List.map_map]
    apply List.pairwise_map.mpr
    refine List.Pairwise.imp_of_mem ?_ (hwf.filter _)
    intro a b ha hb hR
    have hua : a.user_id = u := by
      have := List.of_mem_filter ha
      simp only [Bool.and_eq_true, beq_iff_eq] at this
      exact this.1.1
    have hub : b.user_id = u := by
      have := List.of_mem_filter hb
      simp only [Bool.and_eq_true, beq_iff_eq] at this
      exact this.1.1
    intro hd
    exact hR ⟨hua.trans hub.symm, hd⟩

/-- C4 witness: a December range with one recorded day gives dayCount 1 and
average 4/1, and a range with no records gives the "no records" message. -/
theorem c4_format_stats_witness :
    format_stats (get_period_stats [⟨1, isoBytes ⟨2025, 1, 2⟩, 4⟩] 1
        (isoBytes ⟨2025, 1, 1⟩) (isoBytes ⟨2025, 2, 1⟩)) =
      .summary 1 4 ((4 : ℚ) / 1) [(ddmm (isoBytes ⟨2025, 1, 2⟩), 4)] ∧
    format_stats (get_period_stats [⟨1, isoBytes ⟨2025, 1, 2⟩, 4⟩] 1
        (isoBytes ⟨2026, 1, 1⟩) (isoBytes ⟨2026, 2, 1⟩)) = .noRecords := by
  constructor
  · have hstats : get_period_stats [⟨1, isoBytes ⟨2025, 1, 2⟩, 4⟩] 1
        (isoBytes ⟨2025, 1, 1⟩) (isoBytes ⟨2025, 2, 1⟩) = [(isoBytes ⟨2025, 1, 2⟩, 4)] := by
      decide
    have h := (c4_format_stats [⟨1, isoBytes ⟨2025, 1, 2⟩, 4⟩] 1
      (isoBytes ⟨2025, 1, 1⟩) (isoBytes ⟨2025, 2, 1⟩) _
      (by unfold Db.wf; exact List.pairwise_singleton _ _) rfl).2.1
      (by rw [hstats]; simp)
    rw [hstats] at h
    refine h.trans ?_
    norm_num
  · exact (c4_format_stats [⟨1, isoBytes ⟨2025, 1, 2⟩, 4⟩] 1
      (isoBytes ⟨2026, 1, 1⟩) (isoBytes ⟨2026, 2, 1⟩) _
      (by unfold Db.wf; exact List.pairwise_singleton _ _) rfl).1 (by decide)

/-- C10 (amended): after `edit D c` with a valid date `D` and `c ≥ 0` (which
overwrites via `update_date_count`), a `/stats` query over a valid token
range `[s, e]` containing `D`, with `e` before 9999-12-31, succeeds and its
formatted output contains the per-day line `(DD.MM of D, c)`. -/
theorem c10_edit_then_stats
    (dateTok countTok t1 t2 pd pm py a1 b1 c1 a2 b2 c2 : List Nat)
    (dD mD yD dd1 mm1 yy1 dd2 mm2 yy2 cnt : Int) (D s e e1 : Date)
    (hsD : splitOnByte 46 dateTok = [pd, pm, py])
    (hpD1 : parseInt pd = some dD) (hpD2 : parseInt pm = some mD)
    (hpD3 : parseInt py = some yD) (hmkD : mkDate yD mD dD = some D)
    (hpc : parseInt countTok = some cnt) (hcnt : 0 ≤ cnt)
    (hs1 : splitOnByte 46 t1 = [a1, b1, c1]) (hs2 : splitOnByte 46 t2 = [a2, b2, c2])
    (hp1 : parseInt a1 = some dd1) (hp2 : parseInt b1 = some mm1)
    (hp3 : parseInt c1 = some yy1) (hp4 : parseInt a2 = some dd2)
    (hp5 : parseInt b2 = some mm2) (hp6 : parseInt c2 = some yy2)
    (hm1 : mkDate yy1 mm1 dd1 = some s) (hm2 : mkDate yy2 mm2 dd2 = some e)
    (hsD_in : s.key ≤ D.key) (hD_e : D.key ≤ e.key) (hsucc : succOpt e = some e1)
    (db : Db) (u : Int) (today now : Date) :
    edit_date db u [dateTok, countTok] =
      .ok (update_date_count db u (isoBytes D) cnt) ∧
    show_stats (update_date_count db u (isoBytes D) cnt) u today now [t1, t2] =
      .stats (get_period_stats (update_date_count db u (isoBytes D) cnt) u
        (isoBytes s) (isoBytes e1)) ∧
    (isoBytes D, cnt) ∈
      get_period_stats (update_date_count db u (isoBytes D) cnt) u
        (isoBytes s) (isoBytes e1) ∧
    (∃ dc total avg lines,
       format_stats (get_period_stats (update_date_count db u (isoBytes D) cnt) u
           (isoBytes s) (isoBytes e1)) = .summary dc total avg lines ∧
         (ddmm (isoBytes D), cnt) ∈ lines) := by
  have hDv : D.valid := mkDate_valid hmkD
  have hsv : s.valid := mkDate_valid hm1
  have hev : e.valid := mkDate_valid hm2
  have he1v : e1.valid := succOpt_valid hev hsucc
  have hgt : e.key < e1.key := succOpt_key_gt hev hsucc
  have hedit : edit_date db u [dateTok, countTok] =
      .ok (update_date_count db u (isoBytes D) cnt) := by
    unfold edit_date
    simp only [hsD, hpD1, hpD2, hpD3, hmkD, hpc, List.getD_cons_zero, List.getD_cons_succ,
      List.length_cons, List.length_nil]
    norm_num
    intro hlt
    exact absurd hlt (by omega)
  have hmem : (isoBytes D, cnt) ∈
      get_period_stats (update_date_count db u (isoBytes D) cnt) u
        (isoBytes s) (isoBytes e1) := by
    unfold get_period_stats sortByDate
    apply mem_sortBy.mpr
    refine List.mem_map.mpr ⟨⟨u, isoBytes D, cnt⟩, ?_, rfl⟩
    refine List.mem_filter.mpr ⟨mem_update_date_count db u (isoBytes D) cnt, ?_⟩
    simp only [Bool.and_eq_true, beq_iff_eq]
    refine ⟨⟨trivial, ?_⟩, ?_⟩
    · exact (memLe_isoBytes (valid_inReprRange hsv) (valid_inReprRange hDv)).mpr hsD_in
    · exact (memLt_isoBytes (valid_inReprRange hDv) (valid_inReprRange he1v)).mpr
        ((key_lt_succ_iff hDv hev hsucc).mpr hD_e)
  refine ⟨hedit, ?_, hmem, ?_⟩
  · rw [show_stats_two_dates hs1 hs2 hp1 hp2 hp3 hp4 hp5 hp6 hm1 hm2 _ u today now]
    simp only [hsucc]
    rw [if_neg (by omega)]
  · have hne := List.ne_nil_of_mem hmem
    refine ⟨_, _, _, _, format_stats_ne_nil hne, ?_⟩
    exact List.mem_map.mpr ⟨(isoBytes D, cnt), hmem, rfl⟩

/-- C10 counterexample: `edit 31.12.9999 10` succeeds, but the stats query
over the valid single-day range `31.12.9999 31.12.9999` containing that day
crashes on the end + 1 day overflow, so no per-day line is shown. -/
theorem c10_overflow_counterexample :
    edit_date [] 1 [[51, 49, 46, 49, 50, 46, 57, 57, 57, 57], [49, 48]] =
        .ok [⟨1, isoBytes ⟨9999, 12, 31⟩, 10⟩] ∧
      show_stats [⟨1, isoBytes ⟨9999, 12, 31⟩, 10⟩] 1 ⟨2024, 1, 1⟩ ⟨2024, 1, 1⟩
          [[51, 49, 46, 49, 50, 46, 57, 57, 57, 57],
           [51, 49, 46, 49, 50, 46, 57, 57, 57, 57]] = .crash := ⟨rfl, rfl⟩

/-- C10 witness: the spec scenario `edit 15.12.2024 10` then
`stats 01.12.2024 31.12.2024`. -/
theorem c10_edit_then_stats_witness :
    edit_date [] 7 [[49, 53, 46, 49, 50, 46, 50, 48, 50, 52], [49, 48]] =
        .ok (update_date_count [] 7 (isoBytes ⟨2024, 12, 15⟩) 10) ∧
      (isoBytes ⟨2024, 12, 15⟩, (10 : Int)) ∈
        get_period_stats (update_date_count [] 7 (isoBytes ⟨2024, 12, 15⟩) 10) 7
          (isoBytes ⟨2024, 12, 1⟩) (isoBytes ⟨2025, 1, 1⟩) := by
  have h := c10_edit_then_stats
    [49, 53, 46, 49, 50, 46, 50, 48, 50, 52] [49, 48]
    [48, 49, 46, 49, 50, 46, 50, 48, 50, 52] [51, 49, 46, 49, 50, 46, 50, 48, 50, 52]
    [49, 53] [49, 50] [50, 48, 50, 52]
    [48, 49] [49, 50] [50, 48, 50, 52]
    [51, 49] [49, 50] [50, 48, 50, 52]
    15 12 2024 1 12 2024 31 12 2024 10
    ⟨2024, 12, 15⟩ ⟨2024, 12, 1⟩ ⟨2024, 12, 31⟩ ⟨2025, 1, 1⟩
    (by decide) (by decide) (by decide) (by decide) (by decide) (by decide) (by decide)
    (by decide) (by decide) (by decide) (by decide) (by decide) (by decide) (by decide)
    (by decide) (by decide) (by decide) (by decide) (by decide) (by decide)
    [] 7 ⟨2024, 1, 1⟩ ⟨2024, 1, 1⟩
  exact ⟨h.1, h.2.2.1⟩

theorem inReprRange_mk {Y M D : Nat} (h1 : Y ≤ 9999) (h2 : M ≤ 99) (h3 : D ≤ 99) :
    (⟨Y, M, D⟩ : Date).inReprRange := ⟨h1, h2, h3⟩

/-- Unfolding of the (month, year) branch of `show_stats`. -/
theorem show_stats_month_year {a b : List Nat} {mo yr : Int}
    (hpa : parseInt a = some mo) (hpb : parseInt b = some yr)
    (hns : ¬((splitOnByte 46 a).length = 3 ∧ (splitOnByte 46 b).length = 3))
    (db : Db) (u : Int) (today now : Date) :
    show_stats db u today now [a, b] =
      if mo < 1 ∨ 12 < mo then .invalidMonth
      else .stats (get_month_stats db u yr mo.toNat) := by
  unfold show_stats
  simp only [hpa, hpb]
  rw [if_neg hns]

/-- C3 (amended): for two integer tokens that are not both date-shaped,
interpreted as (month, year): with month in [1,12] and year in [1000,9999]
(9998 for December, so the rollover bound stays four digits wide) the command
runs the query over [first day of the month, first day of the next month) —
December rolling over to January 1 of year + 1 — and that scan admits exactly
the valid days of that calendar month; with month outside [1,12] it fails
with InvalidMonth for every table, so no store query is consulted.  (Outside
1000..9999 the code formats the year without zero-padding, so the bounds no
longer align with the stored zero-padded ISO dates.) -/
theorem c3_month_resolution (a b : List Nat) (mo yr : Int)
    (db : Db) (u : Int) (today now : Date)
    (hpa : parseInt a = some mo) (hpb : parseInt b = some yr)
    (hns : ¬((splitOnByte 46 a).length = 3 ∧ (splitOnByte 46 b).length = 3)) :
    ((1 ≤ mo ∧ mo ≤ 12 ∧ 1000 ≤ yr ∧ yr ≤ 9999 ∧ (mo = 12 → yr ≤ 9998)) →
       show_stats db u today now [a, b] = .stats (get_month_stats db u yr mo.toNat) ∧
       (∀ d : Date, d.valid →
          ((memLe (monthStartBytes yr mo.toNat) (isoBytes d) &&
            memLt (isoBytes d) (monthEndBytes yr mo.toNat)) = true ↔
            (d.year = yr.toNat ∧ d.month = mo.toNat)))) ∧
    ((mo < 1 ∨ 12 < mo) → ∀ db2 : Db, show_stats db2 u today now [a, b] = .invalidMonth) := by
  constructor
  · rintro ⟨hmo1, hmo2, hyr1, hyr2, h12⟩
    constructor
    · rw [show_stats_month_year hpa hpb hns db u today now]
      rw [if_neg (by omega)]
    · intro d hd
      have hyr : yr = ((yr.toNat : Nat) : Int) := by omega
      have hstart : monthStartBytes yr mo.toNat = isoBytes ⟨yr.toNat, mo.toNat, 1⟩ := by
        rw [hyr]
        exact monthStartBytes_eq_iso (by omega) (by omega) (by omega) (by omega)
      have hd31 : d.day ≤ 31 := le_trans hd.2.2.2.2.2 (daysInMonth_le_31 _ _)
      obtain ⟨hd1, hd2, hd3, hd4, hd5, hd6⟩ := hd
      by_cases hm12 : mo.toNat = 12
      · have hend : monthEndBytes yr mo.toNat = isoBytes ⟨yr.toNat + 1, 1, 1⟩ := by
          rw [hyr, hm12]
          exact monthEndBytes_eq_iso_12 (by omega) (by omega)
        rw [hstart, hend, Bool.and_eq_true,
          memLe_isoBytes (inReprRange_mk (by omega) (by omega) (by omega))
            ⟨hd2, by omega, by omega⟩,
          memLt_isoBytes ⟨hd2, by omega, by omega⟩
            (inReprRange_mk (by omega) (by omega) (by omega))]
        simp only [Date.key]
        constructor
        · rintro ⟨hle, hlt⟩
          constructor <;> omega
        · rintro ⟨hy, hm⟩
          constructor <;> omega
      · have hend : monthEndBytes yr mo.toNat = isoBytes ⟨yr.toNat, mo.toNat + 1, 1⟩ := by
          rw [hyr]
          exact monthEndBytes_eq_iso_lt (by omega) (by omega) (by omega) (by omega)
        rw [hstart, hend, Bool.and_eq_true,
          memLe_isoBytes (inReprRange_mk (by omega) (by omega) (by omega))
            ⟨hd2, by omega, by omega⟩,
          memLt_isoBytes ⟨hd2, by omega, by omega⟩
            (inReprRange_mk (by omega) (by omega) (by omega))]
        simp only [Date.key]
        constructor
        · rintro ⟨hle, hlt⟩
          constructor <;> omega
        · rintro ⟨hy, hm⟩
          constructor <;> omega
  · intro hbad db2
    rw [show_stats_month_year hpa hpb hns db2 u today now]
    rw [if_pos hbad]

/-- C3 counterexample: `/stats 1 999` — month 1 of year 999, both tokens
integer-parseable and not date-shaped — returns no rows even though a record
exists on 0999-01-15, because the query bound `999-01-01` is formatted
without zero-padding and compares above every `0999-…` ISO date. -/
theorem c3_unpadded_year_counterexample :
    show_stats [⟨1, isoBytes ⟨999, 1, 15⟩, 5⟩] 1 ⟨2024, 1, 1⟩ ⟨2024, 1, 1⟩
        [[49], [57, 57, 57]] = .stats [] ∧
      (⟨999, 1, 15⟩ : Date).valid ∧
      parseInt [49] = some 1 ∧ parseInt [57, 57, 57] = some 999 :=
  ⟨rfl, by decide, rfl, rfl⟩

/-- C3 witness: `/stats 12 2024` (December → January rollover) and
`/stats 13 2024` (InvalidMonth, table-independent). -/
theorem c3_month_resolution_witness :
    show_stats [⟨1, isoBytes ⟨2024, 12, 15⟩, 3⟩] 1 ⟨2024, 1, 1⟩ ⟨2024, 1, 1⟩
        [[49, 50], [50, 48, 50, 52]] =
      .stats (get_month_stats [⟨1, isoBytes ⟨2024, 12, 15⟩, 3⟩] 1 2024 12) ∧
    (∀ db2 : Db, show_stats db2 1 ⟨2024, 1, 1⟩ ⟨2024, 1, 1⟩
        [[49, 51], [50, 48, 50, 52]] = .invalidMonth) := by
  constructor
  · exact ((c3_month_resolution [49, 50] [50, 48, 50, 52] 12 2024
      [⟨1, isoBytes ⟨2024, 12, 15⟩, 3⟩] 1 ⟨2024, 1, 1⟩ ⟨2024, 1, 1⟩
      (by decide) (by decide) (by decide)).1 (by norm_num)).1
  · intro db2
    exact (c3_month_resolution [49, 51] [50, 48, 50, 52] 13 2024
      db2 1 ⟨2024, 1, 1⟩ ⟨2024, 1, 1⟩
      (by decide) (by decide) (by decide)).2 (by norm_num) db2

/-- C9 (amended): `groupTotals` returns one (subject, total) pair per subject
with a (retained) record, sorted descending by total; the date bounds are
applied ONLY when both are supplied — if either bound is absent the query is
unbounded on BOTH sides (the code guards the filter with
`if start_date and end_date`), not just on the absent side. -/
theorem c9_group_totals (db : Db) (s e : Option (List Nat)) :
    (get_all_users_stats db s e).Pairwise (fun p q => q.2 ≤ p.2) ∧
    (∀ sb eb, s = some sb → e = some eb →
       ((get_all_users_stats db s e).map Prod.fst).Nodup ∧
       (∀ uid : Int,
          uid ∈ (get_all_users_stats db s e).map Prod.fst ↔
            ∃ r ∈ db, r.user_id = uid ∧ (memLe sb r.date && memLt r.date eb) = true) ∧
       (∀ p ∈ get_all_users_stats db s e,
          p.2 = (((db.filter (fun (r : Row) => memLe sb r.date && memLt r.date eb)).filter
              (fun (r : Row) => r.user_id == p.1)).map (fun (r : Row) => r.count)).sum)) ∧
    ((s = none ∨ e = none) → get_all_users_stats db s e = get_all_users_stats db none none) := by
  refine ⟨?_, ?_, ?_⟩
  · unfold get_all_users_stats sortDescByTotal
    exact sortBy_pairwise
      (fun (p q : Int × Int) (h : decide (q.2 ≤ p.2) = true) => of_decide_eq_true h)
      (fun (p q : Int × Int) (h : decide (q.2 ≤ p.2) = false) => by
        have hn := of_decide_eq_false h; omega)
      (fun (p q r : Int × Int) h1 h2 => le_trans h2 h1) _
  · rintro sb eb rfl rfl
    unfold get_all_users_stats sortDescByTotal
    dsimp only
    set rows : Db := db.filter (fun (r : Row) => memLe sb r.date && memLt r.date eb) with hrows
    set L : List (Int × Int) := (dedupKeep (rows.map (fun (r : Row) => r.user_id))).map
      (fun uid => (uid, ((rows.filter (fun (r : Row) => r.user_id == uid)).map
        (fun (r : Row) => r.count)).sum)) with hL
    have hperm : (sortBy (fun (p q : Int × Int) => decide (q.2 ≤ p.2)) L).Perm L :=
      sortBy_perm _ _
    have hfst : ((sortBy (fun (p q : Int × Int) => decide (q.2 ≤ p.2)) L).map Prod.fst).Perm
        (L.map Prod.fst) := hperm.map _
    have hLfst : L.map Prod.fst = dedupKeep (rows.map (fun (r : Row) => r.user_id)) := by
      rw [hL, List.map_map]
      exact List.map_id _
    refine ⟨?_, ?_, ?_⟩
    · rw [hfst.nodup_iff, hLfst]
      exact nodup_dedupKeep _
    · intro uid
      rw [hfst.mem_iff, hLfst, mem_dedupKeep]
      constructor
      · intro hm
        obtain ⟨r, hr, hru⟩ := List.mem_map.mp hm
        rw [hrows] at hr
        refine ⟨r, List.mem_of_mem_filter hr, hru, ?_⟩
        have h2 := List.of_mem_filter hr
        simpa using h2
      · rintro ⟨r, hr, hru, hrange⟩
        refine List.mem_map.mpr ⟨r, ?_, hru⟩
        rw [hrows]
        exact List.mem_filter.mpr ⟨hr, hrange⟩
    · intro p hp
      have hpL : p ∈ L := hperm.mem_iff.mp hp
      obtain ⟨uid, _, heq⟩ := List.mem_map.mp hpL
      rw [← heq]
  · intro h
    rcases s with _ | sb
    · rcases e with _ | eb <;> rfl
    · rcases h with h | h
      · exact Option.noConfusion h
      · rw [h]
        rfl

/-- C9 counterexample: with only a start bound supplied (end absent), a row
dated BEFORE the start bound still contributes — the absent end bound does
not leave just that side unbounded, it disables the start bound too. -/
theorem c9_single_bound_counterexample :
    get_all_users_stats [⟨1, isoBytes ⟨2024, 1, 1⟩, 5⟩]
        (some (isoBytes ⟨2024, 2, 1⟩)) none = [(1, 5)] ∧
      memLt (isoBytes ⟨2024, 1, 1⟩) (isoBytes ⟨2024, 2, 1⟩) = true :=
  ⟨rfl, by decide⟩

/-- C9 witness: both bounds supplied on a two-subject table. -/
theorem c9_group_totals_witness :
    (get_all_users_stats [⟨1, isoBytes ⟨2024, 1, 5⟩, 2⟩, ⟨2, isoBytes ⟨2024, 1, 6⟩, 7⟩]
        (some (isoBytes ⟨2024, 1, 1⟩)) (some (isoBytes ⟨2024, 2, 1⟩))).Pairwise
      (fun p q => q.2 ≤ p.2) ∧
    ((get_all_users_stats [⟨1, isoBytes ⟨2024, 1, 5⟩, 2⟩, ⟨2, isoBytes ⟨2024, 1, 6⟩, 7⟩]
        (some (isoBytes ⟨2024, 1, 1⟩)) (some (isoBytes ⟨2024, 2, 1⟩))).map Prod.fst).Nodup :=
  ⟨(c9_group_totals [⟨1, isoBytes ⟨2024, 1, 5⟩, 2⟩, ⟨2, isoBytes ⟨2024, 1, 6⟩, 7⟩]
      (some (isoBytes ⟨2024, 1, 1⟩)) (some (isoBytes ⟨2024, 2, 1⟩))).1,
   ((c9_group_totals [⟨1, isoBytes ⟨2024, 1, 5⟩, 2⟩, ⟨2, isoBytes ⟨2024, 1, 6⟩, 7⟩]
      (some (isoBytes ⟨2024, 1, 1⟩)) (some (isoBytes ⟨2024, 2, 1⟩))).2.1
      (isoBytes ⟨2024, 1, 1⟩) (isoBytes ⟨2024, 2, 1⟩) rfl rfl).1⟩
